import Mathlib

/-!
Shallow embedding of `fix_ente_timestamps.py`, a tool that repairs the
timestamps and extensions of media files in Ente photo-export albums by
reading companion JSON sidecars and delegating to `exiftool`.

Conventions of the embedding:
* Python `datetime` values are represented by the epoch-seconds integer
  they were built from (`datetime.fromtimestamp(ts)` is injective on the
  integers the program feeds it, and only the originating integer matters
  for the properties proved here).
* Filesystem state and the external `exiftool` binary are oracles passed
  as explicit arguments; `sys.exit` is modelled by returning `none`.
* Counts are `Int` (Python integers are unbounded and the error count in
  `batch_set_timestamps` is a subtraction that may go negative).
-/

namespace EnteFix

/-- Whitespace as recognised by Python `str.strip` / `str.split`
(restricted to the ASCII range, which is all that exiftool output and
the script's inputs contain). -/
def pyIsSpace (c : Char) : Bool :=
  c = ' ' || c = '\t' || c = '\n' || c = '\r' || c = '\x0b' || c = '\x0c'

/-- Python `str.strip()`: remove leading and trailing whitespace. -/
def pyStrip (s : String) : String :=
  ⟨((s.data.dropWhile pyIsSpace).reverse.dropWhile pyIsSpace).reverse⟩

/-- Split a character list into maximal whitespace-free groups,
as Python `str.split()` (no argument) does. -/
def splitGroups (cs : List Char) : List (List Char) :=
  (cs.foldr
    (fun c acc =>
      if pyIsSpace c then [] :: acc
      else
        match acc with
        | [] => [[c]]
        | w :: ws => (c :: w) :: ws)
    []).filter (fun w => ¬w.isEmpty)

/-- Python `str.split()` with no argument. -/
def pySplitWS (s : String) : List String :=
  (splitGroups s.data).map (fun w => ⟨w⟩)

/-- Numeric value of an ASCII digit character. -/
def digitVal (c : Char) : Nat := c.toNat - 48

/-- Digits of a Python integer literal after the first digit: a run of
digits in which a single underscore may appear between two digits
(Python `int()` accepts `1_000` but rejects `1__0`, `1_` and `_1`). -/
def pyDigits : List Char → Nat → Option Nat
  | [], acc => some acc
  | '_' :: rest, acc =>
    match rest with
    | c :: rest2 => if c.isDigit then pyDigits rest2 (acc * 10 + digitVal c) else none
    | [] => none
  | c :: rest, acc => if c.isDigit then pyDigits rest (acc * 10 + digitVal c) else none

/-- Parse a non-empty all-digit (with medial underscores) run; the first
character must be a digit. -/
def pyDigitsTop : List Char → Option Nat
  | [] => none
  | c :: rest => if c.isDigit then pyDigits rest (digitVal c) else none

/-- Python `int(s)` on a string: optional surrounding whitespace, an
optional sign, then digits (ASCII, medial underscores allowed);
`none` models the `ValueError` raised otherwise. -/
def pyIntOfString (s : String) : Option Int :=
  let cs := ((s.data.dropWhile pyIsSpace).reverse.dropWhile pyIsSpace).reverse
  match cs with
  | '+' :: rest => (pyDigitsTop rest).map (fun n => (n : Int))
  | '-' :: rest => (pyDigitsTop rest).map (fun n => -(n : Int))
  | rest => (pyDigitsTop rest).map (fun n => (n : Int))

/-- Index of the last '.' in a character list, if any
(`name.rfind('.')` in `pathlib`). -/
def lastDotIdx : List Char → Option Nat
  | [] => none
  | c :: rest =>
    match lastDotIdx rest with
    | some i => some (i + 1)
    | none => if c = '.' then some 0 else none

/-- Python pathlib PurePath.suffix of a final path component: the part from
the last dot on, provided that dot is neither the first nor the last
character; otherwise the empty string. -/
def pySuffix (name : String) : String :=
  match lastDotIdx name.data with
  | some i =>
    if 0 < i ∧ i < name.data.length - 1 then ⟨name.data.drop i⟩ else ""
  | none => ""

/-- Python pathlib PurePath.stem of a final path component: the part before
the last dot when that dot is neither first nor last; otherwise the
whole name. -/
def pyStem (name : String) : String :=
  match lastDotIdx name.data with
  | some i =>
    if 0 < i ∧ i < name.data.length - 1 then ⟨name.data.take i⟩ else name
  | none => name

/-- Is the first list an initial segment of the second? -/
def isInitSeg : List Char → List Char → Bool
  | [], _ => true
  | _ :: _, [] => false
  | a :: as, b :: bs => a = b && isInitSeg as bs

/-- Does the second list contain the first as a contiguous sublist? -/
def containsL (sub : List Char) : List Char → Bool
  | [] => sub.isEmpty
  | c :: rest => isInitSeg sub (c :: rest) || containsL sub rest

/-- Python `sub in s` on strings. -/
def containsStr (s sub : String) : Bool := containsL sub.data s.data

/-- Python `s.startswith(p)`. -/
def pyStartsWith (s p : String) : Bool := isInitSeg p.data s.data

/-- Python `str.lower()` (ASCII case folding, which is all the script's
extensions need). -/
def pyLower (s : String) : String := ⟨s.data.map Char.toLower⟩

/-- Split a character list at every newline, keeping empty pieces, as
Python `s.split("\x5cn")` does. -/
def splitOnNl (cs : List Char) : List (List Char) :=
  cs.foldr
    (fun c acc =>
      if c = '\n' then [] :: acc
      else
        match acc with
        | [] => [[c]]
        | w :: ws => (c :: w) :: ws)
    [[]]

/-- Python `s.split("\x5cn")`. -/
def pySplitLines (s : String) : List String := (splitOnNl s.data).map (fun w => ⟨w⟩)

/-- Map from exiftool `FileType` values to canonical extensions
(`FILETYPE_TO_EXT` in the script). -/
def FILETYPE_TO_EXT : List (String × String) :=
  [("JPEG", ".jpg"), ("PNG", ".png"), ("GIF", ".gif"), ("WEBP", ".webp"),
   ("HEIC", ".heic"), ("HEIF", ".heic"), ("MP4", ".mp4"), ("MOV", ".mov"),
   ("QuickTime", ".mov"), ("AVI", ".avi"), ("WEBM", ".webm"), ("MKV", ".mkv"),
   ("TIFF", ".tiff"), ("BMP", ".bmp"), ("CR2", ".cr2"), ("NEF", ".nef"),
   ("ARW", ".arw"), ("DNG", ".dng"), ("RAF", ".raf"), ("ORF", ".orf"),
   ("RW2", ".rw2")]

/-- Extension aliases used when comparing extensions
(`EXT_ALIASES` in the script). -/
def EXT_ALIASES : List (String × String) :=
  [(".jpeg", ".jpg"), (".jpe", ".jpg"), (".m4v", ".mp4"),
   (".heif", ".heic"), (".tif", ".tiff")]

/-- Python dict lookup EXT_ALIASES.get(e, e): normalise an extension through the alias
table. -/
def aliasNorm (e : String) : String :=
  (((EXT_ALIASES.find? (fun p => p.1 == e)).map (fun p => p.2)).getD e)

/-- The alias normalisation exactly as the specification claim words it:
.jpeg and .jpe to .jpg, .m4v to .mp4, .heif to .heic, .tif to .tiff. -/
def claimAliasNorm (e : String) : String :=
  if e = ".jpeg" ∨ e = ".jpe" then ".jpg"
  else if e = ".m4v" then ".mp4"
  else if e = ".heif" then ".heic"
  else if e = ".tif" then ".tiff"
  else e

/-- The function get_corrected_filename: compare the file's current extension with
the detected one (both normalised through the alias table, the current
one lowercased) and rebuild the name from the stem and the detected
extension when they disagree.  Takes the final path component, which is
all `Path.suffix`, `Path.stem` and `Path.name` depend on. -/
def get_corrected_filename (name : String) (detected_ext : Option String) :
    String × Bool :=
  match detected_ext with
  | none => (name, false)
  | some de =>
    if aliasNorm (pyLower (pySuffix name)) = aliasNorm de then (name, false)
    else (pyStem name ++ de, true)

/-- A JSON value sitting under a `timestamp` key, as far as Python
`int()` is concerned: an integer, a string, or something `int()`
rejects with `TypeError` (null, list, object). -/
inductive JNum where
  | ofInt (n : Int)
  | ofStr (s : String)
  | other
deriving DecidableEq

/-- Python `int(v)` on such a value. -/
def pyToInt : JNum → Option Int
  | .ofInt n => some n
  | .ofStr s => pyIntOfString s
  | .other => none

/-- The shape of a `photoTakenTime` / `creationTime` entry of a sidecar:
absent from the metadata dict, present but not subscriptable
(`TypeError`), present without a `timestamp` key (`KeyError`), or
present with a `timestamp` value. -/
inductive TimeField where
  | absent
  | notDict
  | noTimestamp
  | stamp (v : JNum)
deriving DecidableEq

/-- The two fields of a sidecar that `parse_timestamp` looks at. -/
structure Metadata where
  photoTakenTime : TimeField
  creationTime : TimeField
deriving DecidableEq

/-- The integer that `int(field["timestamp"])` yields, `none` when any
of `KeyError`, `ValueError`, `TypeError` is raised. -/
def fieldTs : TimeField → Option Int
  | .stamp v => pyToInt v
  | _ => none

/-- The function parse_timestamp: try `photoTakenTime` first (when the key is in
the dict), fall back to `creationTime`, return `none` when neither
yields an integer.  The resulting `datetime` is represented by its
epoch-seconds integer. -/
def parse_timestamp (m : Metadata) : Option Int :=
  let p :=
    match m.photoTakenTime with
    | .absent => none
    | tf => fieldTs tf
  match p with
  | some t => some t
  | none =>
    match m.creationTime with
    | .absent => none
    | tf => fieldTs tf

/-- The timestamp-selection rule as the specification claim words it:
the integer value of `photoTakenTime.timestamp` when that field is
present and convertible to an integer, otherwise the integer value of
`creationTime.timestamp`, otherwise nothing. -/
def claimTimestampRule (m : Metadata) : Option Int :=
  match m.photoTakenTime with
  | .stamp v =>
    match pyToInt v with
    | some t => some t
    | none => fieldTs m.creationTime
  | _ => fieldTs m.creationTime

/-- Does a stripped exiftool output line contain "image files updated"? -/
def lineUpd (l : String) : Bool := containsStr (pyStrip l) "image files updated"

/-- Does a stripped exiftool output line contain "image files unchanged"? -/
def lineUnch (l : String) : Bool := containsStr (pyStrip l) "image files unchanged"

/-- The contribution of a line to a scraped counter:
`int(line.split()[0])`, with `IndexError` and `ValueError` silently
ignored (contributing 0). -/
def lineVal (l : String) : Int :=
  match pySplitWS (pyStrip l) with
  | [] => 0
  | t :: _ => (pyIntOfString t).getD 0

/-- The scraping loop of `batch_set_timestamps` over the lines of
exiftool's stdout: sum the leading integers of lines containing
"image files updated" and, on an `elif`, of lines containing
"image files unchanged". -/
def scrapeCounts : List String → Int × Int
  | [] => (0, 0)
  | l :: rest =>
    let r := scrapeCounts rest
    if lineUpd l then (lineVal l + r.1, r.2)
    else if lineUnch l then (r.1, lineVal l + r.2)
    else r

/-- What the external `exiftool` invocation in `batch_set_timestamps`
does: produce some stdout text, raise `FileNotFoundError` (the binary is
missing), or raise some other exception. -/
inductive ExecOutcome where
  | ok (stdout : String)
  | fileNotFound
  | exn
deriving DecidableEq

/-- A batched subprocess invocation of exiftool: a type-detection call
listing the queried files, or a timestamp-writing call driven by an
argfile holding one entry (file and epoch-seconds timestamp) per
surviving file. -/
inductive ExifCall where
  | detect (files : List String)
  | setTimestamps (args : List (String × Int))
deriving DecidableEq

/-- Is the call a type-detection call? -/
def ExifCall.isDetect : ExifCall → Bool
  | .detect _ => true
  | _ => false

/-- The function batch_set_timestamps: empty input short-circuits to `(0, 0)`;
dry-run prints and reports everything as success; otherwise run exiftool
on an argfile and scrape its stdout, counting the unaccounted files as
errors.  Returns the pair of counts together with the subprocess
invocations made; `none` models `sys.exit(1)` on `FileNotFoundError`. -/
def batch_set_timestamps (files_and_times : List (String × Int)) (dry_run : Bool)
    (exec : ExecOutcome) : Option ((Int × Int) × List ExifCall) :=
  if files_and_times.isEmpty then some ((0, 0), [])
  else if dry_run then some (((files_and_times.length : Int), 0), [])
  else
    match exec with
    | .fileNotFound => none
    | .exn => some ((0, (files_and_times.length : Int)), [])
    | .ok stdout =>
      let uc := scrapeCounts (pySplitLines stdout)
      let accounted := uc.1 + uc.2
      some ((accounted, (files_and_times.length : Int) - accounted),
            [.setTimestamps files_and_times])

/-- The success count as the specification claim words it: the sum of
the leading integers of the output lines containing "image files
updated" plus those containing "image files unchanged" (a line
containing both phrases falls in both sums). -/
def claimSuccessSum (stdout : String) : Int :=
  (((pySplitLines stdout).filter lineUpd).map lineVal).sum
    + (((pySplitLines stdout).filter lineUnch).map lineVal).sum

/-- The success count the code computes: the second sum only ranges
over lines not already counted as updated (the scraping loop uses
`elif`). -/
def amendedSuccessSum (stdout : String) : Int :=
  (((pySplitLines stdout).filter lineUpd).map lineVal).sum
    + (((pySplitLines stdout).filter (fun l => lineUnch l && !lineUpd l)).map lineVal).sum

/-- A directory entry as the script observes it: its final name,
whether it is a directory, and (for directories) its own entries.
An entry that is not a directory satisfies `is_file()`. -/
structure FSNode where
  name : String
  isDir : Bool
  children : List FSNode

/-- What reading `metadata/<filename>.json` yields: the file does not
exist, it exists but `open`/`json.load` raises (`IOError` /
`JSONDecodeError`), or it parses to a metadata dict. -/
inductive Sidecar where
  | missing
  | unreadable
  | parsed (m : Metadata)

/-- The external state `process_album` interacts with, keyed by album
name: the sidecar of each media filename, the file-type map produced by
the batched detection call (`none` models `sys.exit(1)` when exiftool
is missing; an empty map models the warn-and-return-empty paths),
whether copying a given source file raises `IOError`, and the exiftool
outcome of the timestamp-writing call on a given argfile content. -/
structure Oracles where
  sidecar : String → String → Sidecar
  detectRes : String → Option (String → Option String)
  copyFails : String → String → Bool
  tsExec : String → List (String × Int) → ExecOutcome

/-- The media files of an album directory: its entries other than the
`metadata` directory and `.DS_Store`, excluding subdirectories. -/
def mediaFilesOf (album : FSNode) : List FSNode :=
  album.children.filter
    (fun it => ¬(it.name = "metadata" ∨ it.name = ".DS_Store") ∧ it.isDir = false)

/-- Result of the metadata-reading loop (step 2 of `process_album`):
the `files_to_process` list of (source name, destination name,
timestamp) triples, and the skipped / error / renamed counters. -/
structure Step2Out where
  files : List (String × String × Int)
  skipped : Int
  errors : Int
  renamed : Int
deriving DecidableEq

/-- Step 2 of `process_album`: for each media file, look for its
sidecar (skip when missing, count an error when unreadable), extract a
timestamp (skip when none), correct the filename against the detected
type, and queue the file for copying. -/
def step2 (sc : String → Sidecar) (tm : String → Option String) :
    List FSNode → Step2Out
  | [] => ⟨[], 0, 0, 0⟩
  | f :: rest =>
    let r := step2 sc tm rest
    match sc f.name with
    | .missing => ⟨r.files, r.skipped + 1, r.errors, r.renamed⟩
    | .unreadable => ⟨r.files, r.skipped, r.errors + 1, r.renamed⟩
    | .parsed m =>
      match parse_timestamp m with
      | none => ⟨r.files, r.skipped + 1, r.errors, r.renamed⟩
      | some ts =>
        let cw := get_corrected_filename f.name (tm f.name)
        ⟨(f.name, cw.1, ts) :: r.files, r.skipped, r.errors,
         r.renamed + (if cw.2 then 1 else 0)⟩

/-- Result of the copy loop (step 3 of `process_album`): the copies
performed (source, destination), the `files_for_timestamps` list of
(destination, timestamp) pairs, and the copy-error counter. -/
structure Step3Out where
  copies : List (String × String)
  fts : List (String × Int)
  errors : Int
deriving DecidableEq

/-- Step 3 of `process_album`: copy each queued file (in dry-run, only
queue it for timestamping); a failed copy counts an error and drops the
file from the timestamp batch. -/
def step3 (dry : Bool) (cf : String → Bool) :
    List (String × String × Int) → Step3Out
  | [] => ⟨[], [], 0⟩
  | (s, d, t) :: rest =>
    let r := step3 dry cf rest
    if dry then ⟨r.copies, (d, t) :: r.fts, r.errors⟩
    else if cf s then ⟨r.copies, r.fts, r.errors + 1⟩
    else ⟨(s, d) :: r.copies, (d, t) :: r.fts, r.errors⟩

/-- Observable events of a run, for the staging claims. -/
inductive Ev where
  | enumerateAlbums (names : List String)
  | detectTypes (album : String) (files : List String)
  | readSidecar (album : String) (file : String)
  | copyFile (album : String) (src dst : String)
  | writeTimestamps (album : String) (args : List (String × Int))
deriving DecidableEq

/-- The stage an event belongs to: 0 enumeration, 1 type detection,
2 metadata reading, 3 copying, 4 timestamp writing. -/
def stageOf : Ev → Nat
  | .enumerateAlbums _ => 0
  | .detectTypes _ _ => 1
  | .readSidecar _ _ => 2
  | .copyFile _ _ _ => 3
  | .writeTimestamps _ _ => 4

/-- Everything `process_album` returns or effects: the four counters of
its return value, the intermediate lists, whether the album's output
directory was created, the exiftool invocations made, and the event
trace in program order. -/
structure AlbumResult where
  processed : Int
  skipped : Int
  errors : Int
  renamed : Int
  filesToProcess : List (String × String × Int)
  filesForTimestamps : List (String × Int)
  copies : List (String × String)
  madeOutputDir : Bool
  calls : List ExifCall
  trace : List Ev

/-- The function process_album: collect the media files (returning all-zero counts
when there are none), batch-detect their types, run the metadata loop,
create the output directory (outside dry-run), copy the queued files,
and batch-write the timestamps of the surviving ones.  `none` models
`sys.exit(1)` from a missing exiftool binary. -/
def process_album (album : FSNode) (dry : Bool) (O : Oracles) :
    Option AlbumResult :=
  let media := mediaFilesOf album
  if media.isEmpty then
    some ⟨0, 0, 0, 0, [], [], [], false, [], []⟩
  else
    match O.detectRes album.name with
    | none => none
    | some tm =>
      let s2 := step2 (O.sidecar album.name) tm media
      let made := !dry
      let names := media.map FSNode.name
      let readEvs := media.map (fun f => Ev.readSidecar album.name f.name)
      if s2.files.isEmpty then
        some ⟨0, s2.skipped, s2.errors, s2.renamed, [], [], [], made,
              [.detect names], .detectTypes album.name names :: readEvs⟩
      else
        let s3 := step3 dry (O.copyFails album.name) s2.files
        let bs :=
          if s3.fts.isEmpty then some ((0, 0), [])
          else batch_set_timestamps s3.fts dry (O.tsExec album.name s3.fts)
        match bs with
        | none => none
        | some (counts, calls2) =>
          some ⟨counts.1, s2.skipped, s2.errors + s3.errors + counts.2,
                s2.renamed, s2.files, s3.fts, s3.copies, made,
                .detect names :: calls2,
                .detectTypes album.name names ::
                  (readEvs ++
                   s3.copies.map (fun p => Ev.copyFile album.name p.1 p.2) ++
                   (if calls2.isEmpty then [] else
                     [Ev.writeTimestamps album.name s3.fts]))⟩

/-- The album test of `find_albums`: a directory whose name does not
start with a dot and which has some file other than `.DS_Store` or a
`metadata` subdirectory. -/
def isAlbumDir (it : FSNode) : Bool :=
  it.isDir && !(pyStartsWith it.name ".") &&
    (it.children.any (fun f => !f.isDir && f.name != ".DS_Store") ||
     it.children.any (fun c => c.name == "metadata" && c.isDir))

/-- Order on sibling directory entries induced by Python `sorted` on
their paths: since the paths share their parent, it is the
lexicographic order of the names. -/
def nodeLe (a b : FSNode) : Prop := a.name ≤ b.name

instance : DecidableRel nodeLe := fun a b =>
  inferInstanceAs (Decidable (a.name ≤ b.name))

instance : IsTotal FSNode nodeLe := ⟨fun a b => le_total a.name b.name⟩

instance : IsTrans FSNode nodeLe :=
  ⟨fun _ _ _ h h' => le_trans (α := String) h h'⟩

/-- The function find_albums: the qualifying immediate subdirectories of the input
directory, sorted. -/
def find_albums (input : List FSNode) : List FSNode :=
  List.insertionSort nodeLe (input.filter isAlbumDir)

/-- The per-album loop of `main`: process each album in order, summing
the four counters; `none` propagates a `sys.exit(1)`.  Also returns the
event trace of each album, in order. -/
def mainLoop (dry : Bool) (O : Oracles) :
    List FSNode → Option ((Int × Int × Int × Int) × List (List Ev))
  | [] => some ((0, 0, 0, 0), [])
  | a :: rest =>
    match process_album a dry O with
    | none => none
    | some r =>
      match mainLoop dry O rest with
      | none => none
      | some (t, ts) =>
        some ((r.processed + t.1, r.skipped + t.2.1, r.errors + t.2.2.1,
               r.renamed + t.2.2.2), r.trace :: ts)

/-- What `main` returns or effects: the four printed totals, whether
the output root directory was created, and the per-album event
traces. -/
structure MainResult where
  processed : Int
  skipped : Int
  errors : Int
  renamed : Int
  madeOutputRoot : Bool
  albumTraces : List (List Ev)

/-- The function main (after argument parsing and input checks): find the albums
(`sys.exit(1)` when none), create the output root outside dry-run, and
run the per-album loop. -/
def main_run (input : List FSNode) (dry : Bool) (O : Oracles) :
    Option MainResult :=
  let albums := find_albums input
  if albums.isEmpty then none
  else
    match mainLoop dry O albums with
    | none => none
    | some (t, ts) => some ⟨t.1, t.2.1, t.2.2.1, t.2.2.2, !dry, ts⟩

/-- The full event trace of a run: album enumeration first, then each
album's events in order. -/
def mainTrace (input : List FSNode) (dry : Bool) (O : Oracles) :
    Option (List Ev) :=
  (main_run input dry O).map
    (fun mr => Ev.enumerateAlbums ((find_albums input).map FSNode.name)
      :: mr.albumTraces.flatten)

/-- The step-2 output of `process_album` on an album. -/
def s2Of (album : FSNode) (O : Oracles) (tm : String → Option String) :
    Step2Out :=
  step2 (O.sidecar album.name) tm (mediaFilesOf album)

/-- The step-3 output of `process_album` on an album. -/
def s3Of (album : FSNode) (dry : Bool) (O : Oracles)
    (tm : String → Option String) : Step3Out :=
  step3 dry (O.copyFails album.name) (s2Of album O tm).files

/-- The names of an album's media files. -/
def namesOf (album : FSNode) : List String :=
  (mediaFilesOf album).map FSNode.name

/-- The metadata-reading events of an album. -/
def readEvsOf (album : FSNode) : List Ev :=
  (mediaFilesOf album).map (fun f => Ev.readSidecar album.name f.name)

/-- A media file the metadata loop counts as skipped: its sidecar is
missing, or it parses but yields no timestamp. -/
def skipPred (sc : String → Sidecar) (f : FSNode) : Bool :=
  match sc f.name with
  | .missing => true
  | .unreadable => false
  | .parsed m => (parse_timestamp m).isNone

/-- Concrete album for the C1 witness. -/
def c1Album : FSNode := ⟨"A", true, [⟨"a.png", false, []⟩]⟩

/-- Concrete oracles for the C1 witness. -/
def c1Oracles : Oracles :=
  ⟨fun _ _ => .parsed ⟨.stamp (.ofInt 7), .absent⟩,
   fun _ => some (fun _ => some ".jpg"), fun _ _ => false,
   fun _ _ => .ok "1 image files updated"⟩

/-- The result `process_album` computes in the C1 witness scenario. -/
def c1Result : AlbumResult :=
  ⟨1, 0, 0, 1, [("a.png", "a.jpg", 7)], [("a.jpg", 7)],
   [("a.png", "a.jpg")], true,
   [.detect ["a.png"], .setTimestamps [("a.jpg", 7)]],
   [.detectTypes "A" ["a.png"], .readSidecar "A" "a.png",
    .copyFile "A" "a.png" "a.jpg", .writeTimestamps "A" [("a.jpg", 7)]]⟩

/-- Concrete album for the C4 counterexample. -/
def c4Album : FSNode := ⟨"A", true, [⟨"a.jpg", false, []⟩]⟩

/-- Concrete oracles for the C4 counterexample: the only media file has
no sidecar, so no file survives to the timestamp-writing step. -/
def c4Oracles : Oracles :=
  ⟨fun _ _ => .missing, fun _ => some (fun _ => none),
   fun _ _ => false, fun _ _ => .ok ""⟩

/-- The main-loop result in the C5 witness scenario. -/
def c5Main : MainResult :=
  ⟨1, 0, 0, 1, true,
   [[.detectTypes "A" ["a.png"], .readSidecar "A" "a.png",
     .copyFile "A" "a.png" "a.jpg", .writeTimestamps "A" [("a.jpg", 7)]]]⟩

lemma aliasNorm_eq_claim (e : String) : aliasNorm e = claimAliasNorm e := by
  rcases eq_or_ne e ".jpeg" with rfl | h1
  · rfl
  rcases eq_or_ne e ".jpe" with rfl | h2
  · rfl
  rcases eq_or_ne e ".m4v" with rfl | h3
  · rfl
  rcases eq_or_ne e ".heif" with rfl | h4
  · rfl
  rcases eq_or_ne e ".tif" with rfl | h5
  · rfl
  have e1 : (".jpeg" == e) = false := by simpa using Ne.symm h1
  have e2 : (".jpe" == e) = false := by simpa using Ne.symm h2
  have e3 : (".m4v" == e) = false := by simpa using Ne.symm h3
  have e4 : (".heif" == e) = false := by simpa using Ne.symm h4
  have e5 : (".tif" == e) = false := by simpa using Ne.symm h5
  simp [aliasNorm, claimAliasNorm, EXT_ALIASES, List.find?,
    h1, h2, h3, h4, h5, e1, e2, e3, e4, e5]

/-- C3: for every file path and detection result, `get_corrected_filename`
returns the original filename with `was_corrected = False` when the
detected extension is `None` or when the file's lowercased current
extension and the detected extension are equal after alias normalization
(.jpeg and .jpe to .jpg, .m4v to .mp4, .heif to .heic, .tif to .tiff);
otherwise it returns the file's stem concatenated with the detected
extension and `was_corrected = True`. -/
theorem claim_C3 (name : String) :
    get_corrected_filename name none = (name, false) ∧
    ∀ e, get_corrected_filename name (some e) =
      (if claimAliasNorm (pyLower (pySuffix name)) = claimAliasNorm e
       then (name, false) else (pyStem name ++ e, true)) := by
  refine ⟨rfl, fun e => ?_⟩
  simp only [get_corrected_filename, aliasNorm_eq_claim]

/-- C7: `find_albums` returns, in sorted order, exactly those immediate
subdirectories of the input directory whose name does not start with '.'
and which either contain at least one regular file other than .DS_Store
or have a 'metadata' subdirectory. -/
theorem claim_C7 (input : List FSNode) :
    (find_albums input).Sorted nodeLe ∧
    ∀ a, a ∈ find_albums input ↔
      (a ∈ input ∧ a.isDir = true ∧ pyStartsWith a.name "." = false ∧
        ((∃ f ∈ a.children, f.isDir = false ∧ f.name ≠ ".DS_Store") ∨
         (∃ c ∈ a.children, c.name = "metadata" ∧ c.isDir = true))) := by
  constructor
  · exact List.sorted_insertionSort nodeLe _
  · intro a
    rw [find_albums, (List.perm_insertionSort nodeLe _).mem_iff, List.mem_filter]
    simp only [isAlbumDir, Bool.and_eq_true, Bool.or_eq_true, List.any_eq_true,
      Bool.not_eq_true', bne_iff_ne, beq_iff_eq, Bool.not_eq_true]
    constructor
    · rintro ⟨hmem, ⟨hdir, hdot⟩, hcond⟩
      refine ⟨hmem, hdir, hdot, ?_⟩
      rcases hcond with ⟨f, hf, hff, hfn⟩ | ⟨c, hc, hcn, hcd⟩
      · exact Or.inl ⟨f, hf, by simpa using hff, hfn⟩
      · exact Or.inr ⟨c, hc, hcn, hcd⟩
    · rintro ⟨hmem, hdir, hdot, hcond⟩
      refine ⟨hmem, ⟨hdir, hdot⟩, ?_⟩
      rcases hcond with ⟨f, hf, hff, hfn⟩ | ⟨c, hc, hcn, hcd⟩
      · exact Or.inl ⟨f, hf, by simpa using hff, hfn⟩
      · exact Or.inr ⟨c, hc, hcn, hcd⟩

lemma scrapeCounts_eq (lines : List String) :
    scrapeCounts lines =
      (((lines.filter lineUpd).map lineVal).sum,
       ((lines.filter (fun l => lineUnch l && !lineUpd l)).map lineVal).sum) := by
  induction lines with
  | nil => rfl
  | cons l rest ih =>
    unfold scrapeCounts
    rw [ih]
    by_cases hu : lineUpd l = true
    · simp [List.filter_cons, hu]
    · by_cases hc : lineUnch l = true
      · simp [List.filter_cons, hu, hc]
      · simp [List.filter_cons, hu, hc]

lemma batch_set_sum {fts : List (String × Int)} {dry : Bool} {exec : ExecOutcome}
    {res : (Int × Int) × List ExifCall}
    (h : batch_set_timestamps fts dry exec = some res) :
    res.1.1 + res.1.2 = (fts.length : Int) := by
  unfold batch_set_timestamps at h
  by_cases he : fts.isEmpty = true
  · rw [if_pos he] at h
    cases h
    simp [List.isEmpty_iff] at he
    simp [he]
  · rw [if_neg he] at h
    by_cases hd : dry = true
    · rw [if_pos hd] at h
      cases h
      simp
    · rw [if_neg hd] at h
      cases exec with
      | fileNotFound => exact absurd h (by simp)
      | exn => cases h; simp
      | ok stdout => cases h; simp

lemma batch_set_ok {fts : List (String × Int)} (h : fts.isEmpty = false)
    (stdout : String) :
    batch_set_timestamps fts false (.ok stdout) =
      some (((scrapeCounts (pySplitLines stdout)).1
               + (scrapeCounts (pySplitLines stdout)).2,
             (fts.length : Int) - ((scrapeCounts (pySplitLines stdout)).1
               + (scrapeCounts (pySplitLines stdout)).2)),
            [.setTimestamps fts]) := by
  unfold batch_set_timestamps
  rw [if_neg (by simp [h]), if_neg (by simp)]

/-- Counterexample to C2 as stated: on an output whose single line
contains both "image files updated" and "image files unchanged", the
code counts its leading integer once (the scraping loop uses elif), but
the sum the claim describes counts it twice. -/
theorem claim_C2_cex :
    batch_set_timestamps [("a.jpg", 0)] false
        (.ok "1 image files updated, 1 image files unchanged")
      = some ((1, 0), [.setTimestamps [("a.jpg", 0)]]) ∧
    claimSuccessSum "1 image files updated, 1 image files unchanged" = 2 ∧
    (1 : Int) ≠ 2 :=
  ⟨rfl, rfl, by decide⟩

/-- C2 (amended): for every non-empty input list and every textual
output of the external tool, `batch_set_timestamps` with dry_run false
returns (success_count, error_count) where success_count is the sum of
the leading integers of the output lines containing "image files
updated" plus those containing "image files unchanged" but not "image
files updated", and success_count + error_count equals the length of
the input list; the sum identity also holds on the dry-run,
empty-input, and exception return paths. -/
theorem claim_C2 (fts : List (String × Int)) (stdout : String) (h : fts ≠ []) :
    batch_set_timestamps fts false (.ok stdout)
      = some ((amendedSuccessSum stdout,
               (fts.length : Int) - amendedSuccessSum stdout),
              [.setTimestamps fts]) ∧
    (∀ (fts' : List (String × Int)) (dry : Bool) (exec : ExecOutcome) res,
       batch_set_timestamps fts' dry exec = some res →
       res.1.1 + res.1.2 = (fts'.length : Int)) ∧
    (∀ exec, batch_set_timestamps fts true exec
       = some (((fts.length : Int), 0), [])) ∧
    (∀ (dry : Bool) (exec : ExecOutcome),
       batch_set_timestamps [] dry exec = some ((0, 0), [])) ∧
    batch_set_timestamps fts false .exn
      = some ((0, (fts.length : Int)), []) := by
  have hne : fts.isEmpty = false := by simp [List.isEmpty_iff, h]
  refine ⟨?_, fun fts' dry exec res hres => batch_set_sum hres, ?_, fun dry exec => rfl, ?_⟩
  · rw [batch_set_ok hne stdout, scrapeCounts_eq]
    rfl
  · intro exec
    unfold batch_set_timestamps
    rw [if_neg (by simp [hne]), if_pos rfl]
  · unfold batch_set_timestamps
    rw [if_neg (by simp [hne]), if_neg (by simp)]

/-- Witness for C2 on a concrete input and output. -/
theorem claim_C2_witness :
    batch_set_timestamps [("a", 0)] false (.ok "1 image files updated")
      = some ((1, 0), [.setTimestamps [("a", 0)]]) := by
  have h := (claim_C2 [("a", 0)] "1 image files updated" (by simp)).1
  rw [h]
  rfl

lemma lastDotIdx_of_no_dot : ∀ l : List Char, (∀ c ∈ l, c ≠ '.') →
    lastDotIdx l = none := by
  intro l hl
  induction l with
  | nil => rfl
  | cons c rest ih =>
    have hc : c ≠ '.' := hl c (by simp)
    have hrest := ih (fun x hx => hl x (by simp [hx]))
    simp [lastDotIdx, hrest, hc]

lemma lastDotIdx_append_dot (xs t : List Char) (ht : ∀ c ∈ t, c ≠ '.') :
    lastDotIdx (xs ++ '.' :: t) = some xs.length := by
  induction xs with
  | nil => simp [lastDotIdx, lastDotIdx_of_no_dot t ht]
  | cons x xs ih => simp [lastDotIdx, ih]

lemma string_mk_ne_empty {l : List Char} (h : l ≠ []) : (⟨l⟩ : String) ≠ "" := by
  intro hcontra
  exact h (congrArg String.data hcontra)

lemma data_ne_nil {s : String} (h : s ≠ "") : s.data ≠ [] := by
  intro hcontra
  apply h
  cases s
  simp at hcontra
  simp [hcontra]

lemma pySuffix_append (s e : String) (hs : s ≠ "")
    (he : ∃ t, e.data = '.' :: t ∧ t ≠ [] ∧ ∀ c ∈ t, c ≠ '.') :
    pySuffix (s ++ e) = e := by
  obtain ⟨t, het, htne, htd⟩ := he
  have hdata : (s ++ e).data = s.data ++ '.' :: t := by
    rw [String.data_append, het]
  have hslen : 0 < s.data.length :=
    List.length_pos.mpr (data_ne_nil hs)
  have htlen : 0 < t.length := List.length_pos.mpr htne
  simp only [pySuffix, hdata, lastDotIdx_append_dot s.data t htd]
  rw [if_pos ⟨hslen, by simp; omega⟩]
  rw [List.drop_left]
  rw [← het]

lemma pyStem_ne_empty {name : String} (h : name ≠ "") : pyStem name ≠ "" := by
  cases hld : lastDotIdx name.data with
  | none => simpa only [pyStem, hld] using h
  | some i =>
    simp only [pyStem, hld]
    by_cases hcond : 0 < i ∧ i < name.data.length - 1
    · rw [if_pos hcond]
      apply string_mk_ne_empty
      simp [List.take_eq_nil_iff]
      exact ⟨by omega, data_ne_nil h⟩
    · rw [if_neg hcond]
      exact h

/-- Counterexample to C10 as stated: for a path with an empty final
component, the corrected name ".jpg" has its only dot at position 0, so
pathlib treats it as having no extension and a second correction pass
corrects it again instead of returning it unchanged. -/
theorem claim_C10_cex :
    ".jpg" ∈ FILETYPE_TO_EXT.map Prod.snd ∧
    get_corrected_filename "" (some ".jpg") = (".jpg", true) ∧
    get_corrected_filename ".jpg" (some ".jpg") = (".jpg.jpg", true) ∧
    (".jpg.jpg", true) ≠ (".jpg", false) :=
  ⟨by decide, rfl, rfl, by decide⟩

/-- C10 (amended): extension correction is idempotent for every file
path with a non-empty final component: if `get_corrected_filename`
returns a corrected name n for a detected extension e drawn from the
values of the FileType-to-extension table, then calling it on a path
named n with the same e returns (n, False). -/
theorem claim_C10 (name n e : String)
    (he : e ∈ FILETYPE_TO_EXT.map Prod.snd) (hn : name ≠ "")
    (h : get_corrected_filename name (some e) = (n, true)) :
    get_corrected_filename n (some e) = (n, false) := by
  have hn2 : n = pyStem name ++ e := by
    by_cases hc : aliasNorm (pyLower (pySuffix name)) = aliasNorm e
    · have heq : get_corrected_filename name (some e) = (name, false) := by
        simp only [get_corrected_filename]
        rw [if_pos hc]
      rw [heq] at h
      exact absurd (congrArg Prod.snd h) (by simp)
    · have heq : get_corrected_filename name (some e) = (pyStem name ++ e, true) := by
        simp only [get_corrected_filename]
        rw [if_neg hc]
      rw [heq] at h
      exact (congrArg Prod.fst h).symm
  have hkey : (∃ t, e.data = '.' :: t ∧ t ≠ [] ∧ ∀ c ∈ t, c ≠ '.') ∧
      pyLower e = e := by
    simp only [FILETYPE_TO_EXT, List.map_cons, List.map_nil, List.mem_cons,
      List.not_mem_nil, or_false] at he
    rcases he with rfl | rfl | rfl | rfl | rfl | rfl | rfl | rfl | rfl | rfl |
      rfl | rfl | rfl | rfl | rfl | rfl | rfl | rfl | rfl | rfl | rfl <;>
      exact ⟨⟨_, rfl, by decide, by decide⟩, rfl⟩
  have hsuf : pySuffix n = e := by
    rw [hn2]
    exact pySuffix_append (pyStem name) e (pyStem_ne_empty hn) hkey.1
  simp [get_corrected_filename, hsuf, hkey.2]

/-- Witness for C10 on a concrete path and extension. -/
theorem claim_C10_witness :
    get_corrected_filename "x.jpg" (some ".jpg") = ("x.jpg", false) :=
  claim_C10 "x" "x.jpg" ".jpg" (by decide) (by decide) rfl

lemma process_album_cases {album : FSNode} {dry : Bool} {O : Oracles}
    {r : AlbumResult} (h : process_album album dry O = some r) :
    ((mediaFilesOf album).isEmpty = true ∧
      r = ⟨0, 0, 0, 0, [], [], [], false, [], []⟩) ∨
    (∃ tm, (mediaFilesOf album).isEmpty = false ∧
      O.detectRes album.name = some tm ∧
      (((s2Of album O tm).files.isEmpty = true ∧
         r = ⟨0, (s2Of album O tm).skipped, (s2Of album O tm).errors,
              (s2Of album O tm).renamed, [], [], [], !dry,
              [.detect (namesOf album)],
              .detectTypes album.name (namesOf album) :: readEvsOf album⟩) ∨
       ((s2Of album O tm).files.isEmpty = false ∧
         ∃ counts calls2,
           (if (s3Of album dry O tm).fts.isEmpty then some ((0, 0), [])
            else batch_set_timestamps (s3Of album dry O tm).fts dry
              (O.tsExec album.name (s3Of album dry O tm).fts))
               = some (counts, calls2) ∧
           r = ⟨counts.1, (s2Of album O tm).skipped,
                (s2Of album O tm).errors + (s3Of album dry O tm).errors
                  + counts.2,
                (s2Of album O tm).renamed, (s2Of album O tm).files,
                (s3Of album dry O tm).fts, (s3Of album dry O tm).copies, !dry,
                .detect (namesOf album) :: calls2,
                .detectTypes album.name (namesOf album) ::
                  (readEvsOf album ++
                   (s3Of album dry O tm).copies.map
                     (fun p => Ev.copyFile album.name p.1 p.2) ++
                   (if calls2.isEmpty then [] else
                     [Ev.writeTimestamps album.name
                       (s3Of album dry O tm).fts]))⟩))) := by
  simp only [process_album] at h
  split at h
  next hme =>
    injection h with h
    exact Or.inl ⟨hme, h.symm⟩
  next hme =>
    split at h
    next hdet => exact absurd h (by simp)
    next tm hdet =>
      refine Or.inr ⟨tm, by simpa using hme, hdet, ?_⟩
      split at h
      next hs2 =>
        injection h with h
        exact Or.inl ⟨hs2, h.symm⟩
      next hs2 =>
        split at h
        next hbs => exact absurd h (by simp)
        next counts calls2 hbs =>
          injection h with h
          exact Or.inr ⟨by simpa using hs2, counts, calls2, hbs, h.symm⟩

lemma parse_eq_claim (m : Metadata) : parse_timestamp m = claimTimestampRule m := by
  cases m with
  | mk p c =>
    cases p with
    | stamp v =>
      cases c <;> cases hv : pyToInt v <;>
        simp [parse_timestamp, claimTimestampRule, fieldTs, hv]
    | absent => cases c <;> simp [parse_timestamp, claimTimestampRule, fieldTs]
    | notDict => cases c <;> simp [parse_timestamp, claimTimestampRule, fieldTs]
    | noTimestamp =>
      cases c <;> simp [parse_timestamp, claimTimestampRule, fieldTs]

lemma step2_files_mem {sc : String → Sidecar} {tm : String → Option String} :
    ∀ {media : List FSNode} {s d : String} {ts : Int},
      (s, d, ts) ∈ (step2 sc tm media).files →
      (∃ f ∈ media, f.name = s) ∧
      ∃ m, sc s = .parsed m ∧ parse_timestamp m = some ts ∧
        d = (get_corrected_filename s (tm s)).1 := by
  intro media
  induction media with
  | nil => intro s d ts hmem; simp [step2] at hmem
  | cons f rest ih =>
    intro s d ts hmem
    cases hsc : sc f.name with
    | missing =>
      simp only [step2, hsc] at hmem
      obtain ⟨⟨g, hg, hgn⟩, hrest⟩ := ih hmem
      exact ⟨⟨g, by simp [hg], hgn⟩, hrest⟩
    | unreadable =>
      simp only [step2, hsc] at hmem
      obtain ⟨⟨g, hg, hgn⟩, hrest⟩ := ih hmem
      exact ⟨⟨g, by simp [hg], hgn⟩, hrest⟩
    | parsed m =>
      cases hts : parse_timestamp m with
      | none =>
        simp only [step2, hsc, hts] at hmem
        obtain ⟨⟨g, hg, hgn⟩, hrest⟩ := ih hmem
        exact ⟨⟨g, by simp [hg], hgn⟩, hrest⟩
      | some t =>
        simp only [step2, hsc, hts, List.mem_cons] at hmem
        rcases hmem with heq | hmem
        · injection heq with h1 h23
          injection h23 with h2 h3
          subst h1
          subst h2
          subst h3
          exact ⟨⟨f, by simp, rfl⟩, m, hsc, hts, rfl⟩
        · obtain ⟨⟨g, hg, hgn⟩, hrest⟩ := ih hmem
          exact ⟨⟨g, by simp [hg], hgn⟩, hrest⟩

lemma step2_skipped_count {sc : String → Sidecar} {tm : String → Option String} :
    ∀ media : List FSNode,
      (step2 sc tm media).skipped = ((media.countP (skipPred sc) : Nat) : Int) := by
  intro media
  induction media with
  | nil => rfl
  | cons f rest ih =>
    unfold step2
    rw [List.countP_cons]
    cases hsc : sc f.name with
    | missing => simp [skipPred, hsc, ih]
    | unreadable => simp [skipPred, hsc, ih]
    | parsed m =>
      cases hts : parse_timestamp m with
      | none => simp [skipPred, hsc, hts, ih]
      | some t => simp [skipPred, hsc, hts, ih]

lemma step2_total {sc : String → Sidecar} {tm : String → Option String} :
    ∀ media : List FSNode,
      (((step2 sc tm media).files.length : Int) + (step2 sc tm media).skipped
          + (step2 sc tm media).errors) = (media.length : Int) := by
  intro media
  induction media with
  | nil => rfl
  | cons f rest ih =>
    cases hsc : sc f.name with
    | missing =>
      simp only [step2, hsc, List.length_cons]
      push_cast
      push_cast at ih
      omega
    | unreadable =>
      simp only [step2, hsc, List.length_cons]
      push_cast
      push_cast at ih
      omega
    | parsed m =>
      cases hts : parse_timestamp m with
      | none =>
        simp only [step2, hsc, hts, List.length_cons]
        push_cast
        push_cast at ih
        omega
      | some t =>
        simp only [step2, hsc, hts, List.length_cons]
        push_cast
        push_cast at ih
        omega

lemma step3_fts_mem {dry : Bool} {cf : String → Bool} :
    ∀ {l : List (String × String × Int)} {d : String} {ts : Int},
      (d, ts) ∈ (step3 dry cf l).fts → ∃ s, (s, d, ts) ∈ l := by
  intro l
  induction l with
  | nil => intro d ts hmem; simp [step3] at hmem
  | cons x rest ih =>
    obtain ⟨s', d', t'⟩ := x
    intro d ts hmem
    unfold step3 at hmem
    by_cases hd : dry = true
    · rw [if_pos hd] at hmem
      simp only [List.mem_cons] at hmem
      rcases hmem with heq | hmem
      · injection heq with h1 h2
        subst h1
        subst h2
        exact ⟨s', by simp⟩
      · obtain ⟨s, hs⟩ := ih hmem
        exact ⟨s, by simp [hs]⟩
    · rw [if_neg hd] at hmem
      by_cases hcf : cf s' = true
      · rw [if_pos hcf] at hmem
        obtain ⟨s, hs⟩ := ih hmem
        exact ⟨s, by simp [hs]⟩
      · rw [if_neg hcf] at hmem
        simp only [List.mem_cons] at hmem
        rcases hmem with heq | hmem
        · injection heq with h1 h2
          subst h1
          subst h2
          exact ⟨s', by simp⟩
        · obtain ⟨s, hs⟩ := ih hmem
          exact ⟨s, by simp [hs]⟩

lemma step3_copies_mem {dry : Bool} {cf : String → Bool} :
    ∀ {l : List (String × String × Int)} {s d : String},
      (s, d) ∈ (step3 dry cf l).copies →
      ∃ ts, (s, d, ts) ∈ l ∧ (d, ts) ∈ (step3 dry cf l).fts := by
  intro l
  induction l with
  | nil => intro s d hmem; simp [step3] at hmem
  | cons x rest ih =>
    obtain ⟨s', d', t'⟩ := x
    intro s d hmem
    unfold step3 at hmem ⊢
    by_cases hd : dry = true
    · rw [if_pos hd] at hmem ⊢
      obtain ⟨ts, hts1, hts2⟩ := ih hmem
      exact ⟨ts, by simp [hts1], by simp [hts2]⟩
    · rw [if_neg hd] at hmem ⊢
      by_cases hcf : cf s' = true
      · rw [if_pos hcf] at hmem ⊢
        obtain ⟨ts, hts1, hts2⟩ := ih hmem
        exact ⟨ts, by simp [hts1], hts2⟩
      · rw [if_neg hcf] at hmem ⊢
        simp only [List.mem_cons] at hmem
        rcases hmem with heq | hmem
        · obtain ⟨h1, h2⟩ := Prod.mk.injEq .. ▸ heq
          exact ⟨t', by simp [h1, h2], by simp [h2]⟩
        · obtain ⟨ts, hts1, hts2⟩ := ih hmem
          exact ⟨ts, by simp [hts1], by simp [hts2]⟩

lemma step3_total {dry : Bool} {cf : String → Bool} :
    ∀ l : List (String × String × Int),
      (((step3 dry cf l).fts.length : Int) + (step3 dry cf l).errors)
        = (l.length : Int) := by
  intro l
  induction l with
  | nil => rfl
  | cons x rest ih =>
    obtain ⟨s', d', t'⟩ := x
    unfold step3
    by_cases hd : dry = true
    · rw [if_pos hd]; simp only [List.length_cons]; push_cast; push_cast at ih; omega
    · rw [if_neg hd]
      by_cases hcf : cf s' = true
      · rw [if_pos hcf]; simp only [List.length_cons]; push_cast; push_cast at ih; omega
      · rw [if_neg hcf]; simp only [List.length_cons]; push_cast; push_cast at ih; omega

lemma step3_dry_copies {cf : String → Bool} :
    ∀ l : List (String × String × Int), (step3 true cf l).copies = [] := by
  intro l
  induction l with
  | nil => rfl
  | cons x rest ih =>
    obtain ⟨s', d', t'⟩ := x
    unfold step3
    rw [if_pos rfl]
    exact ih

lemma batch_set_calls {fts : List (String × Int)} {dry : Bool}
    {exec : ExecOutcome} {counts : Int × Int} {calls : List ExifCall}
    (h : batch_set_timestamps fts dry exec = some (counts, calls)) :
    calls = [] ∨
    (calls = [.setTimestamps fts] ∧ dry = false ∧ fts ≠ [] ∧
      ∃ out, exec = .ok out) := by
  unfold batch_set_timestamps at h
  by_cases he : fts.isEmpty = true
  · rw [if_pos he] at h
    injection h with h
    exact Or.inl (congrArg Prod.snd h).symm
  · rw [if_neg he] at h
    by_cases hd : dry = true
    · rw [if_pos hd] at h
      injection h with h
      exact Or.inl (congrArg Prod.snd h).symm
    · rw [if_neg hd] at h
      cases exec with
      | fileNotFound => exact absurd h (by simp)
      | exn =>
        injection h with h
        exact Or.inl (congrArg Prod.snd h).symm
      | ok stdout =>
        injection h with h
        refine Or.inr ⟨(congrArg Prod.snd h).symm, by simpa using hd, ?_,
          stdout, rfl⟩
        simpa [List.isEmpty_iff] using he

/-- C8: for every album and on every run (dry-run or not), the four
counts returned by `process_album` satisfy
processed + skipped + errors = number of media files considered, where
the media files considered are the album's non-directory entries
excluding 'metadata' and '.DS_Store'. -/
theorem claim_C8 (album : FSNode) (dry : Bool) (O : Oracles) (r : AlbumResult)
    (h : process_album album dry O = some r) :
    r.processed + r.skipped + r.errors = ((mediaFilesOf album).length : Int) := by
  rcases process_album_cases h with ⟨hme, rfl⟩ | ⟨tm, hme, hdet, hrest⟩
  · rw [List.isEmpty_iff] at hme
    rw [hme]
    rfl
  · rcases hrest with ⟨hs2, rfl⟩ | ⟨hs2, counts, calls2, hbs, rfl⟩
    · rw [List.isEmpty_iff] at hs2
      have ht := @step2_total (O.sidecar album.name) tm (mediaFilesOf album)
      rw [show step2 (O.sidecar album.name) tm (mediaFilesOf album)
            = s2Of album O tm from rfl, hs2] at ht
      dsimp only
      push_cast [List.length_nil] at ht ⊢
      omega
    · have ht2 := @step2_total (O.sidecar album.name) tm (mediaFilesOf album)
      rw [show step2 (O.sidecar album.name) tm (mediaFilesOf album)
            = s2Of album O tm from rfl] at ht2
      have ht3 := @step3_total dry (O.copyFails album.name)
        (s2Of album O tm).files
      rw [show step3 dry (O.copyFails album.name) (s2Of album O tm).files
            = s3Of album dry O tm from rfl] at ht3
      have hcsum : counts.1 + counts.2
          = (((s3Of album dry O tm).fts.length : Nat) : Int) := by
        by_cases hfts : (s3Of album dry O tm).fts.isEmpty = true
        · rw [if_pos hfts] at hbs
          injection hbs with hbs
          rw [List.isEmpty_iff] at hfts
          rw [hfts]
          have hc : ((0 : Int), (0 : Int)) = counts :=
            congrArg Prod.fst hbs
          rw [← hc]
          rfl
        · rw [if_neg hfts] at hbs
          exact batch_set_sum hbs
      dsimp only
      push_cast at ht2 ht3 hcsum ⊢
      omega

/-- Witness for C8 on a concrete album. -/
theorem claim_C8_witness :
    (process_album ⟨"A", true, [⟨"a.jpg", false, []⟩]⟩ false
        ⟨fun _ _ => .missing, fun _ => some (fun _ => none),
         fun _ _ => false, fun _ _ => .ok ""⟩).map
      (fun r => r.processed + r.skipped + r.errors) = some 1 := by
  have h := claim_C8 ⟨"A", true, [⟨"a.jpg", false, []⟩]⟩ false
    ⟨fun _ _ => .missing, fun _ => some (fun _ => none),
     fun _ _ => false, fun _ _ => .ok ""⟩
    ⟨0, 1, 0, 0, [], [], [], true, [.detect ["a.jpg"]],
     [.detectTypes "A" ["a.jpg"], .readSidecar "A" "a.jpg"]⟩ rfl
  exact congrArg some (h.trans rfl)

/-- C9: when the --dry-run flag is set, no filesystem state outside
temporaries is modified: `main` and `process_album` create no output
directories, no file is copied, `batch_set_timestamps` invokes no
subprocess and writes no argfile, and it returns (n, 0) for an input
list of n pairs. -/
theorem claim_C9 :
    (∀ (fts : List (String × Int)) (exec : ExecOutcome),
       batch_set_timestamps fts true exec
         = some (((fts.length : Int), 0), [])) ∧
    (∀ (album : FSNode) (O : Oracles) (r : AlbumResult),
       process_album album true O = some r →
       r.madeOutputDir = false ∧ r.copies = [] ∧
       ∀ c ∈ r.calls, c.isDetect = true) ∧
    (∀ (input : List FSNode) (O : Oracles) (mr : MainResult),
       main_run input true O = some mr → mr.madeOutputRoot = false) := by
  refine ⟨?_, ?_, ?_⟩
  · intro fts exec
    cases fts with
    | nil => rfl
    | cons x rest =>
      unfold batch_set_timestamps
      rw [if_neg (by simp), if_pos rfl]
  · intro album O r h
    rcases process_album_cases h with ⟨hme, rfl⟩ | ⟨tm, hme, hdet, hrest⟩
    · exact ⟨rfl, rfl, by simp⟩
    · rcases hrest with ⟨hs2, rfl⟩ | ⟨hs2, counts, calls2, hbs, rfl⟩
      · refine ⟨rfl, rfl, ?_⟩
        intro c hc
        simp only [List.mem_singleton] at hc
        rw [hc]
        rfl
      · have hcalls : calls2 = [] := by
          by_cases hfts : (s3Of album true O tm).fts.isEmpty = true
          · rw [if_pos hfts] at hbs
            injection hbs with hbs
            exact (congrArg Prod.snd hbs).symm
          · rw [if_neg hfts] at hbs
            rcases batch_set_calls hbs with hc | ⟨_, hdry, _, _⟩
            · exact hc
            · exact absurd hdry (by simp)
        have hcop : (s3Of album true O tm).copies = [] :=
          @step3_dry_copies (O.copyFails album.name) _
        subst hcalls
        refine ⟨rfl, hcop, ?_⟩
        intro c hc
        simp only [List.mem_cons, List.not_mem_nil, or_false] at hc
        rw [hc]
        rfl
  · intro input O mr h
    unfold main_run at h
    by_cases he : (find_albums input).isEmpty = true
    · rw [if_pos he] at h
      exact absurd h (by simp)
    · rw [if_neg he] at h
      cases hml : mainLoop true O (find_albums input) with
      | none => rw [hml] at h; exact absurd h (by simp)
      | some p =>
        rw [hml] at h
        injection h with h
        rw [← h]
        rfl

/-- Witness for C9 on a concrete album, oracle set and input. -/
theorem claim_C9_witness :
    batch_set_timestamps [("a", 3)] true (.ok "") = some ((1, 0), []) ∧
    ((process_album ⟨"A", true, [⟨"a.jpg", false, []⟩]⟩ true
        ⟨fun _ _ => .parsed ⟨.stamp (.ofInt 5), .absent⟩,
         fun _ => some (fun _ => none), fun _ _ => false,
         fun _ _ => .ok ""⟩).map AlbumResult.copies = some []) := by
  constructor
  · exact claim_C9.1 [("a", 3)] (.ok "")
  · have h := claim_C9.2.1 ⟨"A", true, [⟨"a.jpg", false, []⟩]⟩
      ⟨fun _ _ => .parsed ⟨.stamp (.ofInt 5), .absent⟩,
       fun _ => some (fun _ => none), fun _ _ => false,
       fun _ _ => .ok ""⟩
      ⟨1, 0, 0, 0, [("a.jpg", "a.jpg", 5)], [("a.jpg", 5)], [], false,
       [.detect ["a.jpg"]],
       [.detectTypes "A" ["a.jpg"], .readSidecar "A" "a.jpg"]⟩ rfl
    exact congrArg some h.2.1

lemma step2_none_not_mem {sc : String → Sidecar} {tm : String → Option String}
    {f : String}
    (hcond : sc f = .missing ∨
      ∃ m, sc f = .parsed m ∧ parse_timestamp m = none) :
    ∀ {media : List FSNode} {d : String} {ts : Int},
      (f, d, ts) ∉ (step2 sc tm media).files := by
  intro media d ts hmem
  obtain ⟨_, m, hscm, hts, _⟩ := step2_files_mem hmem
  rcases hcond with hmiss | ⟨m', hm', hn⟩
  · rw [hmiss] at hscm
    exact Sidecar.noConfusion hscm
  · rw [hm'] at hscm
    injection hscm with he
    rw [he, hts] at hn
    exact Option.noConfusion hn

/-- C1: for every media file that the tool writes to the output, the
timestamp applied to it is the one extracted from its companion sidecar
metadata/(filename).json: the integer value of photoTakenTime.timestamp
when that field is present and convertible to an integer, otherwise the
integer value of creationTime.timestamp; a media file whose sidecar is
missing or yields neither timestamp is skipped and nothing is written
for it. -/
theorem claim_C1 (album : FSNode) (dry : Bool) (O : Oracles) (r : AlbumResult)
    (h : process_album album dry O = some r) :
    (∀ m, parse_timestamp m = claimTimestampRule m) ∧
    (∀ s d ts, (s, d, ts) ∈ r.filesToProcess →
       (∃ f ∈ mediaFilesOf album, f.name = s) ∧
       ∃ m, O.sidecar album.name s = .parsed m ∧
         claimTimestampRule m = some ts) ∧
    (∀ d ts, (d, ts) ∈ r.filesForTimestamps →
       ∃ s, (s, d, ts) ∈ r.filesToProcess) ∧
    (∀ s d, (s, d) ∈ r.copies →
       ∃ ts, (s, d, ts) ∈ r.filesToProcess ∧
         (d, ts) ∈ r.filesForTimestamps) ∧
    (∀ f ∈ mediaFilesOf album,
       (O.sidecar album.name f.name = .missing ∨
        (∃ m, O.sidecar album.name f.name = .parsed m ∧
          claimTimestampRule m = none)) →
       (∀ d ts, (f.name, d, ts) ∉ r.filesToProcess) ∧
       (∀ d, (f.name, d) ∉ r.copies)) ∧
    r.skipped = (((mediaFilesOf album).countP
      (skipPred (O.sidecar album.name)) : Nat) : Int) := by
  have hclaim : ∀ m, parse_timestamp m = claimTimestampRule m := parse_eq_claim
  have hcond' : ∀ f : String,
      (O.sidecar album.name f = .missing ∨
        (∃ m, O.sidecar album.name f = .parsed m ∧
          claimTimestampRule m = none)) →
      (O.sidecar album.name f = .missing ∨
        ∃ m, O.sidecar album.name f = .parsed m ∧
          parse_timestamp m = none) := by
    intro f hc
    rcases hc with hm | ⟨m, hp, hn⟩
    · exact Or.inl hm
    · exact Or.inr ⟨m, hp, by rw [hclaim m]; exact hn⟩
  rcases process_album_cases h with ⟨hme, rfl⟩ | ⟨tm, hme, hdet, hrest⟩
  · rw [List.isEmpty_iff] at hme
    refine ⟨hclaim, by simp, by simp, by simp, by simp, ?_⟩
    rw [hme]
    rfl
  · rcases hrest with ⟨hs2, rfl⟩ | ⟨hs2, counts, calls2, hbs, rfl⟩
    · refine ⟨hclaim, by simp, by simp, by simp, by simp, ?_⟩
      exact step2_skipped_count (mediaFilesOf album)
    · refine ⟨hclaim, ?_, ?_, ?_, ?_, ?_⟩
      · intro s d ts hmem
        obtain ⟨hf, m, hsc, hts, _⟩ := step2_files_mem hmem
        exact ⟨hf, m, hsc, by rw [← hclaim m]; exact hts⟩
      · intro d ts hmem
        exact step3_fts_mem hmem
      · intro s d hmem
        exact step3_copies_mem hmem
      · intro f hf hc
        refine ⟨fun d ts => step2_none_not_mem (hcond' f.name hc), ?_⟩
        intro d hmem
        obtain ⟨ts, hts1, _⟩ := step3_copies_mem hmem
        exact step2_none_not_mem (hcond' f.name hc) hts1
      · exact step2_skipped_count (mediaFilesOf album)

/-- Witness for C1 on a concrete album: the copied file's timestamp is
the sidecar's photoTakenTime. -/
theorem claim_C1_witness :
    process_album c1Album false c1Oracles = some c1Result ∧
    ∃ m, c1Oracles.sidecar "A" "a.png" = .parsed m ∧
      claimTimestampRule m = some 7 :=
  ⟨rfl, ((claim_C1 c1Album false c1Oracles c1Result rfl).2.1 "a.png" "a.jpg" 7
    (by simp [c1Result])).2⟩

lemma calls2_empty_of_dry {album : FSNode} {O : Oracles}
    {tm : String → Option String} {counts : Int × Int} {calls2 : List ExifCall}
    (hbs : (if (s3Of album true O tm).fts.isEmpty then some ((0, 0), [])
            else batch_set_timestamps (s3Of album true O tm).fts true
              (O.tsExec album.name (s3Of album true O tm).fts))
        = some (counts, calls2)) :
    calls2 = [] := by
  by_cases hfts : (s3Of album true O tm).fts.isEmpty = true
  · rw [if_pos hfts] at hbs
    injection hbs with hbs
    exact (congrArg Prod.snd hbs).symm
  · rw [if_neg hfts] at hbs
    rcases batch_set_calls hbs with hc | ⟨_, hdry, _, _⟩
    · exact hc
    · exact absurd hdry (by simp)

/-- Counterexample to C4 as stated: an album whose single media file
has no sidecar makes exactly one exiftool invocation (the type
detection), not two, because no file survives to the timestamp-writing
call. -/
theorem claim_C4_cex :
    (process_album c4Album false c4Oracles).map
        (fun r => r.calls.length) = some 1 ∧
    (1 : Nat) ≠ 2 :=
  ⟨rfl, by decide⟩

/-- C4 (amended): per album at most one batched detection call and at
most one batched timestamp-write call are made, each covering all
relevant files at once: exactly one detection call listing all the
album's media files whenever there are any, and exactly one write call
listing all surviving files when not in dry-run, at least one file
survived, and the external invocation does not raise; nothing else is
invoked. -/
theorem claim_C4 (album : FSNode) (dry : Bool) (O : Oracles) (r : AlbumResult)
    (h : process_album album dry O = some r) :
    r.calls.countP ExifCall.isDetect ≤ 1 ∧
    r.calls.countP (fun c => !c.isDetect) ≤ 1 ∧
    (∀ c ∈ r.calls, c = .detect (namesOf album) ∨
       c = .setTimestamps r.filesForTimestamps) ∧
    ((mediaFilesOf album).isEmpty = false →
       ExifCall.detect (namesOf album) ∈ r.calls) ∧
    (dry = false → r.filesForTimestamps ≠ [] →
       (∃ out, O.tsExec album.name r.filesForTimestamps = .ok out) →
       ExifCall.setTimestamps r.filesForTimestamps ∈ r.calls) ∧
    (dry = true → ∀ args, ExifCall.setTimestamps args ∉ r.calls) := by
  rcases process_album_cases h with ⟨hme, rfl⟩ | ⟨tm, hme, hdet, hrest⟩
  · refine ⟨by simp, by simp, by simp, ?_, by simp, by simp⟩
    intro hfalse
    rw [hme] at hfalse
    exact absurd hfalse (by simp)
  · rcases hrest with ⟨hs2, rfl⟩ | ⟨hs2, counts, calls2, hbs, rfl⟩
    · refine ⟨?_, ?_, ?_, ?_, by simp, ?_⟩
      · simp [List.countP_cons, ExifCall.isDetect]
      · simp [List.countP_cons, ExifCall.isDetect]
      · intro c hc
        simp only [List.mem_singleton] at hc
        exact Or.inl hc
      · intro _
        simp
      · intro _ args hmem
        simp only [List.mem_singleton] at hmem
        exact ExifCall.noConfusion hmem
    · have hcalls2 : calls2 = [] ∨ (calls2 = [.setTimestamps (s3Of album dry O tm).fts]
          ∧ dry = false ∧ (s3Of album dry O tm).fts ≠ []) := by
        by_cases hfts : (s3Of album dry O tm).fts.isEmpty = true
        · rw [if_pos hfts] at hbs
          injection hbs with hbs
          exact Or.inl (congrArg Prod.snd hbs).symm
        · rw [if_neg hfts] at hbs
          rcases batch_set_calls hbs with hc | ⟨hc, hdry, hne, _⟩
          · exact Or.inl hc
          · exact Or.inr ⟨hc, hdry, hne⟩
      refine ⟨?_, ?_, ?_, fun _ => by simp, ?_, ?_⟩
      · rcases hcalls2 with rfl | ⟨rfl, _, _⟩ <;>
          simp [List.countP_cons, ExifCall.isDetect]
      · rcases hcalls2 with rfl | ⟨rfl, _, _⟩ <;>
          simp [List.countP_cons, ExifCall.isDetect]
      · intro c hc
        simp only [List.mem_cons] at hc
        rcases hc with rfl | hc
        · exact Or.inl rfl
        · rcases hcalls2 with rfl | ⟨rfl, _, _⟩
          · simp at hc
          · simp only [List.mem_singleton] at hc
            exact Or.inr hc
      · intro hdry hne hex
        subst hdry
        obtain ⟨out, hout⟩ := hex
        dsimp only at hne hout ⊢
        have hfts : (s3Of album false O tm).fts.isEmpty = false := by
          simpa [List.isEmpty_iff] using hne
        rw [if_neg (by simp [hfts]), hout, batch_set_ok hfts out] at hbs
        injection hbs with hbs
        have hc2 : calls2 = [ExifCall.setTimestamps (s3Of album false O tm).fts] := by
          simpa using (congrArg Prod.snd hbs).symm
        subst hc2
        simp
      · intro hdry args hmem
        subst hdry
        have := calls2_empty_of_dry hbs
        subst this
        simp only [List.mem_cons, List.not_mem_nil, or_false] at hmem
        exact ExifCall.noConfusion hmem

/-- Witness for C4: in the concrete C1 scenario both batched calls are
made and the write call lists the surviving file. -/
theorem claim_C4_witness :
    ExifCall.setTimestamps c1Result.filesForTimestamps ∈ c1Result.calls :=
  (claim_C4 c1Album false c1Oracles c1Result rfl).2.2.2.2.1 rfl
    (by simp [c1Result]) ⟨"1 image files updated", rfl⟩

lemma pairwise_le_of_const {l : List Nat} {c : Nat} (h : ∀ x ∈ l, x = c) :
    l.Pairwise (· ≤ ·) := by
  induction l with
  | nil => exact List.Pairwise.nil
  | cons x xs ih =>
    refine List.Pairwise.cons ?_ (ih fun y hy => h y (List.mem_cons_of_mem _ hy))
    intro y hy
    rw [h x (by simp), h y (List.mem_cons_of_mem _ hy)]

lemma process_album_trace {album : FSNode} {dry : Bool} {O : Oracles}
    {r : AlbumResult} (h : process_album album dry O = some r) :
    (r.trace.map stageOf).Pairwise (· ≤ ·) ∧ ∀ ev ∈ r.trace, 1 ≤ stageOf ev := by
  have hread : ∀ x ∈ (readEvsOf album).map stageOf, x = 2 := by
    intro x hx
    simp only [readEvsOf, List.map_map, List.mem_map] at hx
    obtain ⟨f, _, hf⟩ := hx
    rw [← hf]
    rfl
  rcases process_album_cases h with ⟨hme, rfl⟩ | ⟨tm, hme, hdet, hrest⟩
  · exact ⟨by simp, by simp⟩
  · rcases hrest with ⟨hs2, rfl⟩ | ⟨hs2, counts, calls2, hbs, rfl⟩
    · constructor
      · dsimp only
        rw [List.map_cons]
        refine List.Pairwise.cons ?_ (pairwise_le_of_const hread)
        intro y hy
        rw [hread y hy]
        show stageOf (Ev.detectTypes album.name (namesOf album)) ≤ 2
        simp [stageOf]
      · intro ev hev
        dsimp only at hev
        rcases List.mem_cons.mp hev with rfl | hev
        · simp [stageOf]
        · simp only [readEvsOf, List.mem_map] at hev
          obtain ⟨f, _, hf⟩ := hev
          rw [← hf]
          simp [stageOf]
    · have hcop : ∀ x ∈ ((s3Of album dry O tm).copies.map
          (fun p => Ev.copyFile album.name p.1 p.2)).map stageOf, x = 3 := by
        intro x hx
        simp only [List.map_map, List.mem_map] at hx
        obtain ⟨p, _, hp⟩ := hx
        rw [← hp]
        rfl
      have hwr : ∀ x ∈ ((if calls2.isEmpty then ([] : List Ev) else
          [Ev.writeTimestamps album.name (s3Of album dry O tm).fts]).map
            stageOf), x = 4 := by
        intro x hx
        by_cases hc : calls2.isEmpty = true
        · rw [if_pos hc] at hx
          simp at hx
        · rw [if_neg hc] at hx
          simp only [List.map_cons, List.map_nil, List.mem_singleton] at hx
          rw [hx]
          rfl
      constructor
      · dsimp only
        rw [List.map_cons, List.map_append, List.map_append]
        refine List.Pairwise.cons ?_ ?_
        · intro y hy
          simp only [List.mem_append] at hy
          have h1 : stageOf (Ev.detectTypes album.name (namesOf album)) = 1 :=
            rfl
          rw [h1]
          rcases hy with (hy | hy) | hy
          · rw [hread y hy]
            omega
          · rw [hcop y hy]
            omega
          · rw [hwr y hy]
            omega
        · refine List.pairwise_append.mpr ⟨List.pairwise_append.mpr
            ⟨pairwise_le_of_const hread, pairwise_le_of_const hcop, ?_⟩,
            pairwise_le_of_const hwr, ?_⟩
          · intro x hx y hy
            rw [hread x hx, hcop y hy]
            omega
          · intro x hx y hy
            simp only [List.mem_append] at hx
            rw [hwr y hy]
            rcases hx with hx | hx
            · rw [hread x hx]
              omega
            · rw [hcop x hx]
              omega
      · intro ev hev
        dsimp only at hev
        rcases List.mem_cons.mp hev with rfl | hev
        · simp [stageOf]
        · simp only [List.mem_append] at hev
          rcases hev with (hev | hev) | hev
          · simp only [readEvsOf, List.mem_map] at hev
            obtain ⟨f, _, hf⟩ := hev
            rw [← hf]
            simp [stageOf]
          · simp only [List.mem_map] at hev
            obtain ⟨p, _, hp⟩ := hev
            rw [← hp]
            simp [stageOf]
          · by_cases hc : calls2.isEmpty = true
            · rw [if_pos hc] at hev
              simp at hev
            · rw [if_neg hc] at hev
              simp only [List.mem_singleton] at hev
              rw [hev]
              simp [stageOf]

lemma mainLoop_traces {dry : Bool} {O : Oracles} :
    ∀ {albums : List FSNode} {t : Int × Int × Int × Int} {ts : List (List Ev)},
      mainLoop dry O albums = some (t, ts) →
      List.Forall₂ (fun a tr => ∃ r, process_album a dry O = some r ∧
        tr = r.trace) albums ts := by
  intro albums
  induction albums with
  | nil =>
    intro t ts h
    injection h with h
    have hts : ([] : List (List Ev)) = ts := congrArg Prod.snd h
    rw [← hts]
    exact List.Forall₂.nil
  | cons a rest ih =>
    intro t ts h
    cases hpa : process_album a dry O with
    | none =>
      simp only [mainLoop, hpa] at h
      exact Option.noConfusion h
    | some r =>
      cases hml : mainLoop dry O rest with
      | none =>
        simp only [mainLoop, hpa, hml] at h
        exact Option.noConfusion h
      | some p =>
        simp only [mainLoop, hpa, hml] at h
        injection h with h
        have hts : r.trace :: p.2 = ts := congrArg Prod.snd h
        rw [← hts]
        exact List.Forall₂.cons ⟨r, hpa, rfl⟩ (ih hml)

lemma forall₂_mem_right {R : FSNode → List Ev → Prop} :
    ∀ {l1 : List FSNode} {l2 : List (List Ev)}, List.Forall₂ R l1 l2 →
      ∀ tr ∈ l2, ∃ a, R a tr := by
  intro l1 l2 hf
  induction hf with
  | nil =>
    intro tr htr
    simp at htr
  | cons ha _ ihf =>
    intro tr htr
    rcases List.mem_cons.mp htr with rfl | htr2
    · exact ⟨_, ha⟩
    · exact ihf tr htr2

/-- C5: the program runs as four stages in a fixed order: it first
enumerates all albums of the input directory, and then, for each album
in turn, it detects file types, then reads metadata sidecars and copies
files to the output, then batch-writes timestamps; for a given album no
later stage begins before the previous stage has finished for that
album (stage numbers along each album's event trace are monotone). -/
theorem claim_C5 (input : List FSNode) (dry : Bool) (O : Oracles)
    (mr : MainResult) (h : main_run input dry O = some mr) :
    mainTrace input dry O
      = some (Ev.enumerateAlbums ((find_albums input).map FSNode.name)
          :: mr.albumTraces.flatten) ∧
    List.Forall₂ (fun a tr => ∃ r, process_album a dry O = some r ∧
      tr = r.trace) (find_albums input) mr.albumTraces ∧
    (∀ tr ∈ mr.albumTraces,
      (tr.map stageOf).Pairwise (· ≤ ·) ∧ ∀ ev ∈ tr, 1 ≤ stageOf ev) ∧
    stageOf (Ev.enumerateAlbums ((find_albums input).map FSNode.name)) = 0 := by
  have hml : ∃ t, mainLoop dry O (find_albums input) = some (t, mr.albumTraces) := by
    unfold main_run at h
    by_cases he : (find_albums input).isEmpty = true
    · rw [if_pos he] at h
      exact absurd h (by simp)
    · rw [if_neg he] at h
      cases hm : mainLoop dry O (find_albums input) with
      | none => rw [hm] at h; exact absurd h (by simp)
      | some p =>
        rw [hm] at h
        injection h with h
        refine ⟨p.1, ?_⟩
        rw [show p = (p.1, p.2) from rfl, ← h]

  obtain ⟨t, hml⟩ := hml
  have hfor := mainLoop_traces hml
  refine ⟨?_, hfor, ?_, rfl⟩
  · unfold mainTrace
    rw [h]
    rfl
  · intro tr htr
    obtain ⟨a, r, hpa, rfl⟩ := forall₂_mem_right hfor tr htr
    exact process_album_trace hpa

/-- Witness for C5 on a concrete single-album run. -/
theorem claim_C5_witness :
    mainTrace [c1Album] false c1Oracles
      = some (Ev.enumerateAlbums ["A"] :: c5Main.albumTraces.flatten) :=
  (claim_C5 [c1Album] false c1Oracles c5Main rfl).1

lemma step2_unreadable_insert {sc : String → Sidecar}
    {tm : String → Option String} {f : FSNode} (hsc : sc f.name = .unreadable) :
    ∀ pre post : List FSNode,
      step2 sc tm (pre ++ f :: post)
        = ⟨(step2 sc tm (pre ++ post)).files,
           (step2 sc tm (pre ++ post)).skipped,
           (step2 sc tm (pre ++ post)).errors + 1,
           (step2 sc tm (pre ++ post)).renamed⟩ := by
  intro pre post
  induction pre with
  | nil => simp [step2, hsc]
  | cons g pre ih =>
    cases hg : sc g.name with
    | missing => simp only [List.cons_append, step2, hg, List.append_eq, ih]
    | unreadable => simp only [List.cons_append, step2, hg, List.append_eq, ih]
    | parsed m =>
      cases hts : parse_timestamp m with
      | none => simp only [List.cons_append, step2, hg, hts, List.append_eq, ih]
      | some t =>
        simp only [List.cons_append, step2, hg, hts, List.append_eq, ih]

lemma step3_fail_insert {cf : String → Bool} {s : String} (hcf : cf s = true)
    (d : String) (t : Int) :
    ∀ pre post : List (String × String × Int),
      step3 false cf (pre ++ (s, d, t) :: post)
        = ⟨(step3 false cf (pre ++ post)).copies,
           (step3 false cf (pre ++ post)).fts,
           (step3 false cf (pre ++ post)).errors + 1⟩ := by
  intro pre post
  induction pre with
  | nil => simp [step3, hcf]
  | cons x pre ih =>
    obtain ⟨s', d', t'⟩ := x
    by_cases hcf' : cf s' = true
    · simp [step3, hcf', ih]
    · simp [step3, hcf', ih]

lemma mainLoop_cons {dry : Bool} {O : Oracles} {a : FSNode}
    {rest : List FSNode} {t : Int × Int × Int × Int} {ts : List (List Ev)}
    (h : mainLoop dry O (a :: rest) = some (t, ts)) :
    ∃ r t' ts', process_album a dry O = some r ∧
      mainLoop dry O rest = some (t', ts') ∧
      t = (r.processed + t'.1, r.skipped + t'.2.1, r.errors + t'.2.2.1,
           r.renamed + t'.2.2.2) ∧
      ts = r.trace :: ts' := by
  cases hpa : process_album a dry O with
  | none =>
    simp only [mainLoop, hpa] at h
    exact Option.noConfusion h
  | some r =>
    cases hml : mainLoop dry O rest with
    | none =>
      simp only [mainLoop, hpa, hml] at h
      exact Option.noConfusion h
    | some p =>
      simp only [mainLoop, hpa, hml] at h
      injection h with h
      exact ⟨r, p.1, p.2, rfl, rfl, (congrArg Prod.fst h).symm,
        (congrArg Prod.snd h).symm⟩

/-- C6: a failure affecting a single file is handled only by
incrementing the error count (and printing): an unreadable metadata
JSON contributes exactly one error and leaves the processing of every
other file unchanged; a failed copy contributes exactly one error and
leaves the copies and timestamp batch of the other files unchanged; a
timestamp write not reported as updated or unchanged is counted in the
error component of the scraped result; and the per-album loop of main
continues through the remaining albums, only accumulating the counts. -/
theorem claim_C6 :
    (∀ (sc : String → Sidecar) (tm : String → Option String)
       (pre post : List FSNode) (f : FSNode),
       sc f.name = .unreadable →
       step2 sc tm (pre ++ f :: post)
         = ⟨(step2 sc tm (pre ++ post)).files,
            (step2 sc tm (pre ++ post)).skipped,
            (step2 sc tm (pre ++ post)).errors + 1,
            (step2 sc tm (pre ++ post)).renamed⟩) ∧
    (∀ (cf : String → Bool) (pre post : List (String × String × Int))
       (s d : String) (t : Int),
       cf s = true →
       step3 false cf (pre ++ (s, d, t) :: post)
         = ⟨(step3 false cf (pre ++ post)).copies,
            (step3 false cf (pre ++ post)).fts,
            (step3 false cf (pre ++ post)).errors + 1⟩) ∧
    (∀ (fts : List (String × Int)) (stdout : String) (counts : Int × Int)
       (calls : List ExifCall),
       batch_set_timestamps fts false (.ok stdout) = some (counts, calls) →
       counts.2 = (fts.length : Int) - counts.1) ∧
    (∀ (dry : Bool) (O : Oracles) (a : FSNode) (rest : List FSNode)
       (t : Int × Int × Int × Int) (ts : List (List Ev)),
       mainLoop dry O (a :: rest) = some (t, ts) →
       ∃ r t' ts', process_album a dry O = some r ∧
         mainLoop dry O rest = some (t', ts') ∧
         t = (r.processed + t'.1, r.skipped + t'.2.1, r.errors + t'.2.2.1,
              r.renamed + t'.2.2.2) ∧
         ts = r.trace :: ts') := by
  refine ⟨fun sc tm pre post f hsc => step2_unreadable_insert hsc pre post,
    fun cf pre post s d t hcf => step3_fail_insert hcf d t pre post,
    ?_, fun dry O a rest t ts h => mainLoop_cons h⟩
  intro fts stdout counts calls h
  have hsum := batch_set_sum h
  dsimp only at hsum
  omega

/-- Witness for C6: one unreadable sidecar in a one-file album adds
exactly one error relative to the empty album. -/
theorem claim_C6_witness :
    step2 (fun _ => Sidecar.unreadable) (fun _ => none)
        ([] ++ (⟨"a.jpg", false, []⟩ : FSNode) :: [])
      = ⟨(step2 (fun _ => Sidecar.unreadable)
            (fun _ => (none : Option String)) ([] ++ [])).files,
         (step2 (fun _ => Sidecar.unreadable)
            (fun _ => (none : Option String)) ([] ++ [])).skipped,
         (step2 (fun _ => Sidecar.unreadable)
            (fun _ => (none : Option String)) ([] ++ [])).errors + 1,
         (step2 (fun _ => Sidecar.unreadable)
            (fun _ => (none : Option String)) ([] ++ [])).renamed⟩ :=
  claim_C6.1 (fun _ => Sidecar.unreadable) (fun _ => none) [] []
    ⟨"a.jpg", false, []⟩ rfl

end EnteFix
